import Mathlib

/-!
Shallow embedding of the `StructuredText` module (`StructuredText.py`):
the `extract` parser (file / list / dict sources) and the `write`
serializer, together with theorems checking the specification's claims.

Python strings are modelled as `List Char`; Python's `dict` (insertion
ordered, unique keys) is modelled as an association list where assignment
updates in place and otherwise appends.  `sys.exit(1)` and the
`NameError` reachable on the whole-input free-text fallback for
list/dict sources are explicit result constructors.
-/

namespace StructuredText

abbrev Str := List Char

/-- `str.toList` shorthand for string literals. -/
def lit (s : String) : Str := s.toList

/-- Python whitespace for `str.strip` / regex `\s` (ASCII fragment). -/
def pyIsSpace (c : Char) : Bool :=
  c == ' ' || c == '\t' || c == '\n' || c == '\r' || c == '\x0b' || c == '\x0c'

/-- `str.lstrip()`. -/
def lstrip (s : Str) : Str := s.dropWhile pyIsSpace

/-- `str.rstrip()`. -/
def rstrip (s : Str) : Str := (s.reverse.dropWhile pyIsSpace).reverse

/-- `str.strip()`. -/
def pyStrip (s : Str) : Str := rstrip (lstrip s)

/-- Line-break characters recognised by `str.splitlines` (ASCII + Unicode). -/
def isLineBreak (c : Char) : Bool :=
  c == '\n' || c == '\r' || c == '\x0b' || c == '\x0c' ||
  c == '\x1c' || c == '\x1d' || c == '\x1e' || c == '\x85' ||
  c == '\u2028' || c == '\u2029'

/-- Worker for `str.splitlines`: `acc` holds the current line reversed.
The extra `fuel` argument (structural, so that the kernel can evaluate
the function) bounds the number of steps; every step consumes at least
one input character, so `fuel = s.length` computes the full split. -/
def splitLinesGo : Nat → Str → Str → List Str
  | _, [], acc => [acc.reverse]
  | 0, _ :: _, acc => [acc.reverse]
  | fuel + 1, c :: rest, acc =>
    if isLineBreak c then
      if c = '\r' ∧ rest.head? = some '\n' then
        acc.reverse :: (if rest.tail = [] then [] else splitLinesGo fuel rest.tail [])
      else
        acc.reverse :: (if rest = [] then [] else splitLinesGo fuel rest [])
    else splitLinesGo fuel rest (c :: acc)

/-- `str.splitlines()`. -/
def pySplitlines (s : Str) : List Str :=
  if s = [] then [] else splitLinesGo s.length s []

/-- Worker for `str.replace`, with a structural fuel argument: every
step consumes at least one input character, so `fuel = s.length`
performs the full replacement. -/
def pyReplaceGo (pat repl : Str) : Nat → Str → Str
  | 0, s => s
  | fuel + 1, s =>
    match s with
    | [] => []
    | c :: rest =>
      if pat ≠ [] ∧ pat.isPrefixOf (c :: rest) then
        repl ++ pyReplaceGo pat repl fuel ((c :: rest).drop pat.length)
      else c :: pyReplaceGo pat repl fuel rest

/-- `str.replace(pat, repl)` (left-to-right, non-overlapping). -/
def pyReplace (s pat repl : Str) : Str := pyReplaceGo pat repl s.length s

/-- The multi-line delimiter token `"""`. -/
def q3 : Str := ['\"', '\"', '\"']

/-- The escaped delimiter `\"\"\"` used on the free-text fallback path. -/
def bsq3 : Str := ['\\', '\"', '\\', '\"', '\\', '\"']

/-- First character of a key: `[a-zA-Z_]`. -/
def isKeyStart (c : Char) : Bool :=
  ('a' ≤ c && c ≤ 'z') || ('A' ≤ c && c ≤ 'Z') || c == '_'

/-- Continuation character of a key: `[a-zA-Z0-9_]`. -/
def isKeyChar (c : Char) : Bool :=
  isKeyStart c || ('0' ≤ c && c ≤ '9')

/-- ASCII letter: `[a-zA-Z]`. -/
def isAlpha (c : Char) : Bool :=
  ('a' ≤ c && c ≤ 'z') || ('A' ≤ c && c ≤ 'Z')

/-- The spec's key syntax `[A-Za-z_][A-Za-z0-9_]*` as a full-string match. -/
def validKey : Str → Bool
  | [] => false
  | c :: rest => isKeyStart c && rest.all isKeyChar

/-- Tail of the key/value regex after the literal `:` — greedy `\s*(.*)$`
with Python's `$` (end of string or just before a final newline).
`i` is the number of whitespace characters currently consumed by `\s*`,
tried greedily from the maximum down. -/
def matchTailGo : Nat → Str → Option Str
  | i, t =>
    let rest := t.drop i
    let p := rest.takeWhile (fun c => c != '\n')
    if rest.drop p.length = [] ∨ rest.drop p.length = ['\n'] then some p
    else
      match i with
      | 0 => none
      | i' + 1 => matchTailGo i' t

/-- `\s*(.*)$` on the text after the separator. -/
def matchTail (t : Str) : Option Str :=
  matchTailGo (t.takeWhile pyIsSpace).length t

/-- `re.match(r'^([a-zA-Z_][a-zA-Z0-9_]*)\s*:\s*(.*)$', line)`, returning
`(group 1, group 2)`.  The leading group and the whitespace before `:`
are deterministic (no successful backtracking exists for them). -/
def keyValueMatch (line : Str) : Option (Str × Str) :=
  match line with
  | [] => none
  | c :: rest =>
    if isKeyStart c then
      match (rest.drop (rest.takeWhile isKeyChar).length).dropWhile pyIsSpace with
      | ':' :: t =>
        match matchTail t with
        | some g2 => some (c :: rest.takeWhile isKeyChar, g2)
        | none => none
      | _ => none
    else none

/-- `line.lstrip().lstrip('#').lstrip()` — text stored for a comment line. -/
def commentText (line : Str) : Str :=
  lstrip ((lstrip line).dropWhile (fun c => c == '#'))

/-- Decimal rendering of a natural number. -/
def natStr (n : Nat) : Str := (Nat.repr n).toList

/-- The synthetic key `_COMMENT_<n>`. -/
def commentKey (n : Nat) : Str := lit "_COMMENT_" ++ natStr n

/-- Validity check applied to `freetext_name`:
`re.compile(r'^([a-zA-Z][a-zA-Z0-9_]*)$').match(freetext_name)`. -/
def freetextNameOk (s : Str) : Bool :=
  match s with
  | [] => false
  | c :: rest =>
    isAlpha c &&
      (let r := rest.dropWhile isKeyChar
       r == ([] : Str) || r == ['\n'])

/-- An insertion-ordered dictionary, as produced by `extract`. -/
abbrev Doc := List (Str × Str)

/-- `d[k] = v`: update in place if present, else append. -/
def dictInsert : Doc → Str → Str → Doc
  | [], k, v => [(k, v)]
  | (k', v') :: rest, k, v =>
    if k' = k then (k, v) :: rest else (k', v') :: dictInsert rest k v

/-- `k in d`. -/
def dictContains (d : Doc) (k : Str) : Bool := d.any (fun p => p.1 == k)

/-- `d.get(k, '')`. -/
def dictGet (d : Doc) (k : Str) : Str :=
  ((d.find? (fun p => p.1 == k)).map Prod.snd).getD []

/-- `del d[k]` (keys are unique, so removing the first match suffices). -/
def dictErase : Doc → Str → Doc
  | [], _ => []
  | (k', v') :: rest, k => if k' = k then rest else (k', v') :: dictErase rest k

/-- `f"Duplicate key '{name}' in {source}"`. -/
def dupMsg (name source : Str) : Str :=
  lit "Duplicate key '" ++ name ++ lit "' in " ++ source

/-- `f"No variable key in '{line[:40]}...' in {source}"`. -/
def noKeyMsg (line source : Str) : Str :=
  lit "No variable key in '" ++ line.take 40 ++ lit "...' in " ++ source

/-- `f"No key variables found in {source}"`. -/
def noVarsMsg (source : Str) : Str :=
  lit "No key variables found in " ++ source

/-- `f"Variable '{key}' could not be deleted from {source}."`. -/
def delMsg (key source : Str) : Str :=
  lit "Variable '" ++ key ++ lit "' could not be deleted from " ++ source ++ lit "."

/-- Keyword options of `extract`, with the Python defaults. -/
structure Opts where
  keyvar : Option Str := none
  delvars : List Str := []
  quiet : Bool := false
  strict : Bool := false
  no_comments : Bool := false
  freetext_name : Str := lit "_FREETEXT_"
deriving DecidableEq

/-- Mutable locals of the `extract` line loop. -/
structure LoopState where
  vars : Doc
  FREETEXT : Str
  ERRORS : Str
  current_var_name : Str
  current_var_value : Str
  multiline : Bool
  comment_n : Nat
deriving DecidableEq

/-- Initial loop state. -/
def initSt : LoopState :=
  { vars := [], FREETEXT := [], ERRORS := [],
    current_var_name := [], current_var_value := [],
    multiline := false, comment_n := 0 }

/-- Outcome of processing one line. -/
inductive StepRes where
  | next (st : LoopState)
  | ret (d : Doc)
  | exit1
deriving DecidableEq

/-- One iteration of the `for line in lines` loop of `extract`. -/
def processLine (o : Opts) (source : Str) (st : LoopState) (line : Str) : StepRes :=
  if st.multiline then
    if rstrip line = q3 then
      let commit := dictInsert st.vars st.current_var_name (pyStrip st.current_var_value)
      if o.keyvar = some st.current_var_name then
        .ret [(st.current_var_name, st.current_var_value)]
      else
        .next { st with vars := commit, current_var_name := [],
                        current_var_value := [], multiline := false }
    else
      .next { st with current_var_value := st.current_var_value ++ '\n' :: line }
  else
    if pyStrip line = [] then .next st
    else if (lstrip line).head? = some '#' then
      if o.no_comments then .next st
      else
        .next { st with comment_n := st.comment_n + 1,
                        vars := dictInsert st.vars
                          (commentKey (st.comment_n + 1)) (commentText line) }
    else
      match keyValueMatch line with
      | some (g1, g2) =>
        let name := pyStrip g1
        if dictContains st.vars name ∧ o.strict then .exit1
        else
          let errs := if dictContains st.vars name
                      then st.ERRORS ++ dupMsg name source ++ ['\n'] else st.ERRORS
          let value := pyStrip g2
          if value = q3 then
            .next { st with current_var_name := name, current_var_value := [],
                            multiline := true, ERRORS := errs }
          else if o.keyvar = some name then
            .ret [(name, value)]
          else
            .next { st with vars := dictInsert st.vars name value,
                            current_var_name := [], current_var_value := [],
                            ERRORS := errs }
      | none =>
        if o.strict then .exit1
        else
          .next { st with ERRORS := st.ERRORS ++ noKeyMsg line source ++ ['\n'],
                          FREETEXT := st.FREETEXT ++ pyReplace line q3 bsq3 ++ ['\n'] }

/-- Outcome of the whole line loop. -/
inductive LoopRes where
  | done (st : LoopState)
  | ret (d : Doc)
  | exit1
deriving DecidableEq

/-- The `for line in lines` loop. -/
def runLoop (o : Opts) (source : Str) (st : LoopState) : List Str → LoopRes
  | [] => .done st
  | l :: rest =>
    match processLine o source st l with
    | .next st2 => runLoop o source st2 rest
    | .ret d => .ret d
    | .exit1 => .exit1

/-- Result of `extract`: a returned dictionary, `sys.exit(1)`, or the
`NameError` raised when the whole-input fallback reads `file_content`
on a list/dict source. -/
inductive ExtractResult where
  | ok (d : Doc)
  | exit1
  | nameError
deriving DecidableEq

/-- Lines 220–222: `if current_var_name and not multiline: variables[...] = ...`. -/
def trailingCommit (st : LoopState) : Doc :=
  if st.current_var_name ≠ [] ∧ st.multiline = false then
    dictInsert st.vars st.current_var_name (pyStrip st.current_var_value)
  else st.vars

/-- Lines 246–253: the `delvars` deletion loop, threading `(variables, ERRORS)`. -/
def delvarsRun (source : Str) : List Str → Doc × Str → Doc × Str
  | [], acc => acc
  | k :: rest, (vars, errs) =>
    if dictContains vars k then delvarsRun source rest (dictErase vars k, errs)
    else delvarsRun source rest (vars, errs ++ delMsg k source ++ ['\n'])

/-- Lines 255–266: merging accumulated free text into the mapping. -/
def freetextMerge (ftName : Str) (vars : Doc) (FREETEXT : Str) : Doc :=
  if pyStrip FREETEXT ≠ [] then
    let s1 :=
      if dictContains vars (lit "_TEXT_") then
        (dictErase vars (lit "_TEXT_"),
         pyStrip (dictGet vars (lit "_TEXT_")) ++ '\n' :: pyStrip FREETEXT)
      else (vars, FREETEXT)
    let s2 :=
      if dictContains s1.1 (lit "_FREETEXT_") then
        (dictErase s1.1 (lit "_FREETEXT_"),
         pyStrip (dictGet s1.1 (lit "_FREETEXT_")) ++ '\n' :: pyStrip s1.2)
      else if dictContains s1.1 ftName then
        (s1.1, pyStrip (dictGet s1.1 ftName) ++ '\n' :: pyStrip s1.2)
      else s1
    dictInsert s2.1 ftName (pyStrip s2.2)
  else vars

/-- Lines 268–274: `_ERRORS_` is always discarded, then repopulated from
the current run's diagnostics when non-blank. -/
def errorsFinish (vars : Doc) (ERRORS : Str) : Doc :=
  let v1 := if dictContains vars (lit "_ERRORS_") then dictErase vars (lit "_ERRORS_") else vars
  if pyStrip ERRORS ≠ [] then dictInsert v1 (lit "_ERRORS_") (pyStrip ERRORS) else v1

/-- Lines 234–276 after the empty-mapping fallback: `keyvar` filter,
`delvars`, free-text merge, `_ERRORS_`. -/
def finishUp (o : Opts) (source : Str) (vars : Doc) (FREETEXT ERRORS : Str) : ExtractResult :=
  match o.keyvar with
  | some k =>
    if dictContains vars k then .ok [(k, dictGet vars k)]
    else if o.strict then .exit1 else .ok []
  | none =>
    let de := delvarsRun source o.delvars (vars, ERRORS)
    let vars2 := freetextMerge o.freetext_name de.1 FREETEXT
    .ok (errorsFinish vars2 de.2)

/-- Lines 220–276: everything after the line loop.  `fileContent` is
`some` content for a file source; for list/dict sources the fallback
`FREETEXT = file_content` raises `NameError`. -/
def postProcess (o : Opts) (source : Str) (fileContent : Option Str) (st : LoopState) :
    ExtractResult :=
  let vars0 := trailingCommit st
  if vars0 = [] then
    if o.strict then .exit1
    else
      match fileContent with
      | none => .nameError
      | some content =>
        finishUp o source vars0 content
          (if !o.quiet then st.ERRORS ++ noVarsMsg source ++ ['\n'] else st.ERRORS)
  else
    finishUp o source vars0 st.FREETEXT st.ERRORS

/-- An empty `keyvar` string is falsy in Python, i.e. equivalent to `None`. -/
def normKeyvar (o : Opts) : Opts :=
  { o with keyvar := if o.keyvar = some [] then none else o.keyvar }

/-- The body of `extract` once the source has been normalised to a line
list: free-text-name validation, the line loop, post-processing. -/
def extractCore (o : Opts) (source : Str) (fileContent : Option Str) (lines : List Str) :
    ExtractResult :=
  if o.freetext_name ≠ lit "_FREETEXT_" ∧ freetextNameOk o.freetext_name = false then .exit1
  else
    match runLoop (normKeyvar o) source initSt lines with
    | .ret d => .ok d
    | .exit1 => .exit1
    | .done st => postProcess (normKeyvar o) source fileContent st

/-- `extract` on a list source. -/
def extractList (lines : List Str) (o : Opts) : ExtractResult :=
  extractCore o (lit "list") none lines

/-- `extract` on a file source: `path` only feeds the source descriptor,
`content` is what was read from the file. -/
def extractFile (path content : Str) (o : Opts) : ExtractResult :=
  extractCore o (lit "file '" ++ path ++ lit "'") (some content) (pySplitlines content)

/-- Flattening of a dict source into canonical lines (lines 135–143). -/
def dictFlatten : Doc → List Str
  | [] => []
  | (k, v) :: rest =>
    if v.contains '\n' then
      (k ++ ':' :: q3) :: (pySplitlines v ++ q3 :: dictFlatten rest)
    else (k ++ ':' :: v) :: dictFlatten rest

/-- `extract` on a dict source. -/
def extractDict (d : Doc) (o : Opts) : ExtractResult :=
  extractCore o (lit "dictionary") none (dictFlatten d)

/-- One rendered entry of `write` (lines 289–308, non-`keyvar` path). -/
def writeEntry (sepc endStr : Str) (k v : Str) : Str :=
  if v.contains '\n' then
    k ++ ':' :: sepc ++ q3 ++ '\n' :: pyReplace v (q3 ++ ['\n']) (q3 ++ ['\n']) ++
      '\n' :: q3 ++ endStr
  else if (lit "_COMMENT_").isPrefixOf k then
    '#' :: sepc ++ v ++ endStr
  else
    k ++ ':' :: sepc ++ v ++ endStr

/-- The text emitted by `write(variables, keyvar=kv, lf=lf, sep=sep)`. -/
def writeDoc (d : Doc) (kv : Option Str) (lf sep : Int) : Str :=
  let endStr := List.replicate (max 0 lf).toNat '\n'
  let sepc := List.replicate (max 0 sep).toNat ' '
  match kv with
  | some key =>
    match d.find? (fun p => p.1 == key) with
    | some p => writeEntry sepc endStr p.1 p.2
    | none => []
  | none => (d.map (fun p => writeEntry sepc endStr p.1 p.2)).flatten

end StructuredText

namespace StructuredText

/-! ### Basic facts about the string primitives -/

theorem pySplitlines_nil : pySplitlines [] = [] := rfl

theorem splitLinesGo_newline (fuel : Nat) (rest acc : Str) :
    splitLinesGo (fuel + 1) ('\n' :: rest) acc =
      acc.reverse :: (if rest = [] then [] else splitLinesGo fuel rest []) := by
  rw [splitLinesGo]
  simp [isLineBreak]

theorem splitLinesGo_nonbreak (fuel : Nat) (c : Char) (h : isLineBreak c = false)
    (rest acc : Str) :
    splitLinesGo (fuel + 1) (c :: rest) acc = splitLinesGo fuel rest (c :: acc) := by
  rw [splitLinesGo]
  simp [h]

theorem splitLinesGo_peel (L : Str) (hL : ∀ c ∈ L, isLineBreak c = false) (R acc : Str)
    (fuel : Nat) (hf : fuel = L.length + R.length + 1) :
    splitLinesGo fuel (L ++ '\n' :: R) acc = (acc.reverse ++ L) :: pySplitlines R := by
  induction L generalizing acc fuel with
  | nil =>
    subst hf
    simp only [List.length_nil, List.nil_append, Nat.zero_add]
    rw [splitLinesGo_newline, pySplitlines]
    simp
  | cons c tl ih =>
    have hc : isLineBreak c = false := hL c (by simp)
    obtain ⟨f2, rfl⟩ : ∃ f2, fuel = f2 + 1 := by
      refine ⟨tl.length + R.length + 1, ?_⟩
      simp only [List.length_cons] at hf
      omega
    rw [List.cons_append, splitLinesGo_nonbreak _ c hc,
        ih (fun d hd => hL d (by simp [hd])) _ _ (by simp at hf; omega)]
    simp

theorem pySplitlines_peel (L : Str) (hL : ∀ c ∈ L, isLineBreak c = false) (R : Str) :
    pySplitlines (L ++ '\n' :: R) = L :: pySplitlines R := by
  rw [pySplitlines, if_neg (by simp), splitLinesGo_peel L hL R [] _ (by simp; omega)]
  simp

/-! ### strip lemmas -/

theorem lstrip_cons_nows {c : Char} (h : pyIsSpace c = false) (t : Str) :
    lstrip (c :: t) = c :: t := by
  simp [lstrip, List.dropWhile_cons, h]

theorem lstrip_cons_ws {c : Char} (h : pyIsSpace c = true) (t : Str) :
    lstrip (c :: t) = lstrip t := by
  simp [lstrip, List.dropWhile_cons, h]

theorem pyStrip_cons_ws {c : Char} (h : pyIsSpace c = true) (t : Str) :
    pyStrip (c :: t) = pyStrip t := by
  rw [pyStrip, lstrip_cons_ws h]
  rfl

theorem lstrip_append {A : Str} (B : Str) (h : lstrip A ≠ []) :
    lstrip (A ++ B) = lstrip A ++ B := by
  simp only [lstrip] at h ⊢
  rw [List.dropWhile_append]
  simp only [List.isEmpty_iff]
  rw [if_neg h]

theorem rstrip_append (A : Str) {B : Str} (h : rstrip B ≠ []) :
    rstrip (A ++ B) = A ++ rstrip B := by
  have h2 : B.reverse.dropWhile pyIsSpace ≠ [] := by
    intro e
    exact h (by simp [rstrip, e])
  rw [rstrip, List.reverse_append, List.dropWhile_append]
  simp only [List.isEmpty_iff]
  rw [if_neg h2, List.reverse_append, List.reverse_reverse]
  rfl

theorem dropWhile_nows {p : Char → Bool} {s : Str} (h : ∀ c ∈ s, p c = false) :
    s.dropWhile p = s := by
  rw [List.dropWhile_eq_self_iff]
  intro hl hget
  rw [h (s.get ⟨0, hl⟩) (s.get_mem _ _)] at hget
  exact Bool.false_ne_true hget

theorem rstrip_nows {s : Str} (h : ∀ c ∈ s, pyIsSpace c = false) : rstrip s = s := by
  rw [rstrip, dropWhile_nows (fun c hc => h c (List.mem_reverse.mp hc)), List.reverse_reverse]

theorem lstrip_nows {s : Str} (h : ∀ c ∈ s, pyIsSpace c = false) : lstrip s = s := by
  rw [lstrip, dropWhile_nows h]

theorem pyStrip_nows {s : Str} (h : ∀ c ∈ s, pyIsSpace c = false) : pyStrip s = s := by
  rw [pyStrip, lstrip_nows h, rstrip_nows h]

theorem pyStrip_eq_nil_iff {s : Str} :
    pyStrip s = [] ↔ ∀ c ∈ s, pyIsSpace c = true := by
  constructor
  · intro h c hc
    rw [pyStrip, rstrip] at h
    have h1 : (lstrip s).reverse.dropWhile pyIsSpace = [] := by
      rcases e : (lstrip s).reverse.dropWhile pyIsSpace with _ | _
      · rfl
      · rw [e] at h; simp at h
    have h2 : ∀ c ∈ (lstrip s).reverse, pyIsSpace c = true := by
      intro d hd
      exact List.dropWhile_eq_nil_iff.mp h1 d hd
    have h3 : ∀ c ∈ lstrip s, pyIsSpace c = true := by
      intro d hd
      exact h2 d (List.mem_reverse.mpr hd)
    have hsplit : s.takeWhile pyIsSpace ++ s.dropWhile pyIsSpace = s :=
      List.takeWhile_append_dropWhile pyIsSpace s
    rcases (List.mem_append.mp (hsplit ▸ hc)) with ht | hdp
    · exact List.mem_takeWhile_imp ht
    · exact h3 c hdp
  · intro h
    have h1 : lstrip s = [] := List.dropWhile_eq_nil_iff.mpr h
    rw [pyStrip, h1]
    rfl

theorem pyStrip_ne_nil {s : Str} {c : Char} (hc : c ∈ s) (hw : pyIsSpace c = false) :
    pyStrip s ≠ [] := by
  intro e
  rw [pyStrip_eq_nil_iff.mp e c hc] at hw
  simp at hw

theorem lstrip_eq_of_pyStrip_eq {s : Str} (h : pyStrip s = s) : lstrip s = s := by
  have h1 : (lstrip s).length ≤ s.length :=
    List.IsSuffix.length_le (List.dropWhile_suffix pyIsSpace)
  have h2 : (pyStrip s).length ≤ (lstrip s).length := by
    rw [pyStrip, rstrip]
    calc ((lstrip s).reverse.dropWhile pyIsSpace).reverse.length
        = ((lstrip s).reverse.dropWhile pyIsSpace).length := List.length_reverse _
      _ ≤ (lstrip s).reverse.length :=
          List.IsSuffix.length_le (List.dropWhile_suffix pyIsSpace)
      _ = (lstrip s).length := List.length_reverse _
  rw [h] at h2
  have hlen : (lstrip s).length = s.length := le_antisymm h1 h2
  rw [lstrip] at hlen ⊢
  exact List.IsSuffix.eq_of_length (List.dropWhile_suffix pyIsSpace) hlen

/-! ### Character-class facts -/

theorem keyChar_not_space {c : Char} (h : isKeyChar c = true) : pyIsSpace c = false := by
  by_contra hc
  rw [Bool.not_eq_false] at hc
  simp only [pyIsSpace, Bool.or_eq_true, beq_iff_eq] at hc
  rcases hc with ((((rfl | rfl) | rfl) | rfl) | rfl) | rfl <;> exact absurd h (by decide)

theorem keyStart_keyChar {c : Char} (h : isKeyStart c = true) : isKeyChar c = true := by
  simp [isKeyChar, h]

theorem validKey_chars {k : Str} (h : validKey k = true) :
    ∀ c ∈ k, isKeyChar c = true := by
  cases k with
  | nil => simp [validKey] at h
  | cons c kt =>
    simp only [validKey, Bool.and_eq_true, List.all_eq_true] at h
    intro d hd
    rcases List.mem_cons.mp hd with rfl | hd
    · exact keyStart_keyChar h.1
    · exact h.2 d hd

theorem validKey_nows {k : Str} (h : validKey k = true) :
    ∀ c ∈ k, pyIsSpace c = false :=
  fun c hc => keyChar_not_space (validKey_chars h c hc)

theorem validKey_strip {k : Str} (h : validKey k = true) : pyStrip k = k :=
  pyStrip_nows (validKey_nows h)

/-! ### takeWhile / dropWhile helpers -/

theorem takeWhile_append_stop {p : Char → Bool} {A : Str} (hA : ∀ a ∈ A, p a = true)
    {b : Char} (hb : p b = false) (B : Str) :
    (A ++ b :: B).takeWhile p = A := by
  induction A with
  | nil => simp [List.takeWhile_cons, hb]
  | cons a tl ih =>
    have h1 : p a = true := hA a (by simp)
    simp only [List.cons_append, List.takeWhile_cons, h1, if_true]
    rw [ih (fun x hx => hA x (by simp [hx]))]

theorem drop_takeWhile_length (p : Char → Bool) (s : Str) :
    s.drop (s.takeWhile p).length = s.dropWhile p := by
  calc s.drop (s.takeWhile p).length
      = (s.takeWhile p ++ s.dropWhile p).drop (s.takeWhile p).length := by
        rw [List.takeWhile_append_dropWhile]
    _ = s.dropWhile p := List.drop_left _ _

theorem mem_of_mem_dropWhile {p : Char → Bool} {s : Str} {c : Char}
    (h : c ∈ s.dropWhile p) : c ∈ s :=
  (List.dropWhile_suffix p).sublist.mem h

/-! ### The key/value regex on rendered lines -/

theorem matchTail_noNewline {v : Str} (hv : '\n' ∉ v) :
    matchTail v = some (v.dropWhile pyIsSpace) := by
  rw [matchTail, matchTailGo.eq_def]
  simp only [drop_takeWhile_length]
  have hnil : (v.dropWhile pyIsSpace).dropWhile (fun c => c != '\n') = [] := by
    rw [List.dropWhile_eq_nil_iff]
    intro x hx
    simp only [bne_iff_ne, ne_eq]
    intro e
    exact hv (e ▸ mem_of_mem_dropWhile hx)
  simp only [hnil, List.nil_eq, true_or, if_pos]
  rw [List.takeWhile_eq_self_iff.mpr]
  intro x hx
  simp only [bne_iff_ne, ne_eq]
  intro e
  exact hv (e ▸ mem_of_mem_dropWhile hx)

theorem keyValueMatch_render {k v : Str} (hk : validKey k = true) (hv : '\n' ∉ v) :
    keyValueMatch (k ++ ':' :: v) = some (k, v.dropWhile pyIsSpace) := by
  cases k with
  | nil => simp [validKey] at hk
  | cons c kt =>
    simp only [validKey, Bool.and_eq_true, List.all_eq_true] at hk
    rw [List.cons_append, keyValueMatch, if_pos hk.1]
    have h1 : (kt ++ ':' :: v).takeWhile isKeyChar = kt :=
      takeWhile_append_stop (fun a ha => hk.2 a ha) (by decide) v
    simp only [h1]
    rw [List.drop_left]
    have h2 : (':' :: v).dropWhile pyIsSpace = ':' :: v := by
      rw [List.dropWhile_cons]
      simp [pyIsSpace]
    simp only [h2]
    rw [matchTail_noNewline hv]

/-! ### pyReplace with identical pattern and replacement -/

theorem pyReplaceGo_self (pat : Str) : ∀ fuel (s : Str), pyReplaceGo pat pat fuel s = s := by
  intro fuel
  induction fuel with
  | zero => intro s; rw [pyReplaceGo]
  | succ n ih =>
    intro s
    cases s with
    | nil => rw [pyReplaceGo]
    | cons c rest =>
      rw [pyReplaceGo]
      by_cases h : pat ≠ [] ∧ pat.isPrefixOf (c :: rest)
      · rw [if_pos h]
        obtain ⟨t, ht⟩ := List.isPrefixOf_iff_prefix.mp h.2
        have hd : (c :: rest).drop pat.length = t := by rw [← ht, List.drop_left]
        rw [hd, ih t, ← ht]
      · rw [if_neg h, ih rest]

theorem pyReplace_self (s pat : Str) : pyReplace s pat pat = s :=
  pyReplaceGo_self pat s.length s

/-! ### Dictionary lemmas -/

theorem dictContains_eq_false {d : Doc} {k : Str} (h : ∀ p ∈ d, p.1 ≠ k) :
    dictContains d k = false := by
  rw [dictContains, List.any_eq_false]
  intro p hp
  simp [h p hp]

theorem dictInsert_fresh {d : Doc} {k : Str} (h : dictContains d k = false) (v : Str) :
    dictInsert d k v = d ++ [(k, v)] := by
  induction d with
  | nil => rfl
  | cons p rest ih =>
    rw [dictContains, List.any_cons, Bool.or_eq_false_iff] at h
    cases p with
    | mk k' v' =>
      rw [dictInsert, if_neg (by simpa using h.1), ih h.2, List.cons_append]

theorem dictContains_append (d₁ d₂ : Doc) (k : Str) :
    dictContains (d₁ ++ d₂) k = (dictContains d₁ k || dictContains d₂ k) :=
  List.any_append

/-! ### Loop lemmas -/

theorem runLoop_nil (o : Opts) (src : Str) (st : LoopState) :
    runLoop o src st [] = .done st := rfl

theorem runLoop_next {o : Opts} {src : Str} {st st2 : LoopState} {l : Str}
    (h : processLine o src st l = .next st2) (ls : List Str) :
    runLoop o src st (l :: ls) = runLoop o src st2 ls := by
  rw [runLoop, h]

theorem runLoop_ret {o : Opts} {src : Str} {st : LoopState} {l : Str} {d : Doc}
    (h : processLine o src st l = .ret d) (ls : List Str) :
    runLoop o src st (l :: ls) = .ret d := by
  rw [runLoop, h]

theorem runLoop_exit {o : Opts} {src : Str} {st : LoopState} {l : Str}
    (h : processLine o src st l = .exit1) (ls : List Str) :
    runLoop o src st (l :: ls) = .exit1 := by
  rw [runLoop, h]

theorem runLoop_append (o : Opts) (src : Str) (st : LoopState) (xs ys : List Str) :
    runLoop o src st (xs ++ ys) =
      match runLoop o src st xs with
      | .done st2 => runLoop o src st2 ys
      | .ret d => .ret d
      | .exit1 => .exit1 := by
  induction xs generalizing st with
  | nil => simp [runLoop_nil]
  | cons l tl ih =>
    rw [List.cons_append, runLoop, runLoop]
    cases processLine o src st l with
    | next st2 => exact ih st2
    | ret d => rfl
    | exit1 => rfl


/-! ### Inversion facts for matched key/value lines -/

theorem kvMatch_inv {line k g2 : Str} (h : keyValueMatch line = some (k, g2)) :
    validKey k = true ∧ pyStrip line ≠ [] ∧ (lstrip line).head? ≠ some '#' := by
  cases line with
  | nil => simp [keyValueMatch] at h
  | cons c rest =>
    by_cases hc : isKeyStart c = true
    · have hk : k = c :: rest.takeWhile isKeyChar := by
        rw [keyValueMatch, if_pos hc] at h
        split at h
        · split at h
          · exact (Prod.mk.injEq _ _ _ _ ▸ (Option.some.injEq _ _ ▸ h)).1.symm
          · exact absurd h (by simp)
        · exact absurd h (by simp)
      have hnws : pyIsSpace c = false := keyChar_not_space (keyStart_keyChar hc)
      refine ⟨?_, ?_, ?_⟩
      · subst hk
        simp only [validKey, Bool.and_eq_true, List.all_eq_true]
        exact ⟨hc, fun x hx => List.mem_takeWhile_imp hx⟩
      · exact pyStrip_ne_nil (by simp) hnws
      · rw [lstrip_cons_nows hnws]
        simp only [List.head?_cons, ne_eq, Option.some.injEq]
        intro e
        subst e
        exact absurd hc (by decide)
    · rw [keyValueMatch, if_neg hc] at h
      exact absurd h (by simp)

/-- Processing a line matched as a key/value declaration whose key is not
yet present: the three possible outcomes (multiline opener, requested-key
early return, plain store). -/
theorem processLine_kv {o : Opts} {src : Str} {st : LoopState} {line k g2 : Str}
    (hm : st.multiline = false) (hmv : keyValueMatch line = some (k, g2))
    (hdup : dictContains st.vars k = false) :
    processLine o src st line =
      if pyStrip g2 = q3 then
        .next { st with current_var_name := k, current_var_value := [], multiline := true }
      else if o.keyvar = some k then .ret [(k, pyStrip g2)]
      else .next { st with vars := dictInsert st.vars k (pyStrip g2),
                           current_var_name := [], current_var_value := [] } := by
  obtain ⟨hk, hnb, hnc⟩ := kvMatch_inv hmv
  rw [processLine]
  simp only [hm, Bool.false_eq_true, if_false, if_neg hnb, if_neg hnc, hmv,
    validKey_strip hk, hdup, Bool.false_eq_true, false_and, if_false]

/-- Processing a key/value declaration whose key is already present:
strict mode exits, non-strict mode records the duplicate diagnostic. -/
theorem processLine_kv_dup {o : Opts} {src : Str} {st : LoopState} {line k g2 : Str}
    (hm : st.multiline = false) (hmv : keyValueMatch line = some (k, g2))
    (hdup : dictContains st.vars k = true) :
    processLine o src st line =
      if o.strict then .exit1
      else if pyStrip g2 = q3 then
        .next { st with current_var_name := k, current_var_value := [], multiline := true,
                        ERRORS := st.ERRORS ++ dupMsg k src ++ ['\n'] }
      else if o.keyvar = some k then .ret [(k, pyStrip g2)]
      else .next { st with vars := dictInsert st.vars k (pyStrip g2),
                           current_var_name := [], current_var_value := [],
                           ERRORS := st.ERRORS ++ dupMsg k src ++ ['\n'] } := by
  obtain ⟨hk, hnb, hnc⟩ := kvMatch_inv hmv
  rw [processLine]
  simp only [hm, Bool.false_eq_true, if_false, if_neg hnb, if_neg hnc, hmv,
    validKey_strip hk, hdup, true_and, if_true]

/-- Processing a blank line in normal mode: no effect. -/
theorem processLine_blank {o : Opts} {src : Str} {st : LoopState} {line : Str}
    (hm : st.multiline = false) (hb : pyStrip line = []) :
    processLine o src st line = .next st := by
  rw [processLine]
  simp [hm, hb]

/-- Processing an empty line in normal mode: no effect. -/
theorem processLine_nil {o : Opts} {src : Str} {st : LoopState}
    (hm : st.multiline = false) :
    processLine o src st [] = .next st := processLine_blank hm rfl

/-- Processing a continuation line inside a multiline block. -/
theorem processLine_cont {o : Opts} {src : Str} {st : LoopState} {line : Str}
    (hm : st.multiline = true) (hq : rstrip line ≠ q3) :
    processLine o src st line =
      .next { st with current_var_value := st.current_var_value ++ '\n' :: line } := by
  rw [processLine]
  simp [hm, hq]

/-- Processing the terminator of a multiline block when the pending key is
not the requested one (or no key was requested). -/
theorem processLine_term {o : Opts} {src : Str} {st : LoopState} {line : Str}
    (hm : st.multiline = true) (hq : rstrip line = q3)
    (hkv : o.keyvar ≠ some st.current_var_name) :
    processLine o src st line =
      .next { st with vars := dictInsert st.vars st.current_var_name
                                (pyStrip st.current_var_value),
                      current_var_name := [], current_var_value := [],
                      multiline := false } := by
  rw [processLine]
  simp [hm, hq, hkv]

/-- Processing the terminator of a multiline block whose pending key is the
requested key: early return of the raw accumulator. -/
theorem processLine_term_ret {o : Opts} {src : Str} {st : LoopState} {line : Str}
    (hm : st.multiline = true) (hq : rstrip line = q3)
    (hkv : o.keyvar = some st.current_var_name) :
    processLine o src st line = .ret [(st.current_var_name, st.current_var_value)] := by
  rw [processLine]
  simp [hm, hq, hkv]

/-- `extractCore` once the free-text key name passes validation. -/
theorem extractCore_eq (o : Opts) (src : Str) (fc : Option Str) (lines : List Str)
    (hft : ¬(o.freetext_name ≠ lit "_FREETEXT_" ∧ freetextNameOk o.freetext_name = false)) :
    extractCore o src fc lines =
      match runLoop (normKeyvar o) src initSt lines with
      | .ret d => .ok d
      | .exit1 => .exit1
      | .done st => postProcess (normKeyvar o) src fc st := by
  rw [extractCore, if_neg hft]

theorem normKeyvar_of_ne {o : Opts} (h : o.keyvar ≠ some []) : normKeyvar o = o := by
  rw [normKeyvar, if_neg h]


/-- The loop over lines that are all blank or unstructured (no key/value
match, no comment): variables stay untouched, the mode stays Normal. -/
theorem runLoop_unstructured_lines {o : Opts} (hs : o.strict = false) (src : Str) :
    ∀ (lines : List Str) (st : LoopState), st.multiline = false →
    st.current_var_name = [] →
    (∀ l ∈ lines, (lstrip l).head? ≠ some '#') →
    (∀ l ∈ lines, keyValueMatch l = none) →
    ∃ st2, runLoop o src st lines = .done st2 ∧ st2.vars = st.vars ∧
      st2.multiline = false ∧ st2.current_var_name = [] := by
  intro lines
  induction lines with
  | nil =>
    intro st hm hn _ _
    exact ⟨st, rfl, rfl, hm, hn⟩
  | cons l tl ih =>
    intro st hm hn hc hk
    by_cases hb : pyStrip l = []
    · rw [runLoop_next (processLine_blank hm hb)]
      exact ih st hm hn (fun x hx => hc x (by simp [hx])) (fun x hx => hk x (by simp [hx]))
    · have hp : processLine o src st l = .next { st with
          ERRORS := st.ERRORS ++ noKeyMsg l src ++ ['\n'],
          FREETEXT := st.FREETEXT ++ pyReplace l q3 bsq3 ++ ['\n'] } := by
        rw [processLine]
        simp [hm, hb, hc l (by simp), hk l (by simp), hs]
      rw [runLoop_next hp]
      obtain ⟨st2, h1, h2, h3, h4⟩ := ih
        { st with ERRORS := st.ERRORS ++ noKeyMsg l src ++ ['\n'],
                  FREETEXT := st.FREETEXT ++ pyReplace l q3 bsq3 ++ ['\n'] }
        (by exact hm) (by exact hn)
        (fun x hx => hc x (by simp [hx])) (fun x hx => hk x (by simp [hx]))
      exact ⟨st2, h1, by exact h2, h3, h4⟩

/-- C2: on the scenario line list, non-strict default extraction yields
exactly `_COMMENT_1 = "hi"`, `NAME = "test"`, `DESC = "x\ny"`,
`_FREETEXT_ = "BAD LINE"` and an `_ERRORS_` entry holding exactly one
"no variable key" diagnostic. -/
theorem c2_scenario :
    extractList [lit "# hi", lit "NAME: test", lit "", lit "BAD LINE", lit "DESC:\"\"\"",
        lit "x", lit "y", lit "\"\"\""] {} =
      .ok [(lit "_COMMENT_1", lit "hi"), (lit "NAME", lit "test"), (lit "DESC", lit "x\ny"),
           (lit "_FREETEXT_", lit "BAD LINE"),
           (lit "_ERRORS_", lit "No variable key in 'BAD LINE...' in list")] := by
  decide

/-- C4 (code bug): on input `["A: 1", "K:\"\"\"", "x"]` the multiline block
for `K` is never terminated; the spec (and the comment on lines 220–222 of
the source) says the pending value is committed, but the guard
`current_var_name and not multiline` is false in exactly this situation,
so `K` is silently dropped and only `A` survives. -/
theorem c4_unterminated_multiline_dropped :
    extractList [lit "A: 1", lit "K:\"\"\"", lit "x"] {} = .ok [(lit "A", lit "1")] ∧
    dictContains [(lit "A", lit "1")] (lit "K") = false := by
  decide

/-- C6: requesting key `B` from `A:1 / B:2 / C:3` returns exactly
`{B: "2"}`, and the lines after `B`'s declaration are never evaluated:
any suffix whatsoever (malformed lines included) gives the same result. -/
theorem c6_allowlist_early_exit :
    extractList [lit "A:1", lit "B:2", lit "C:3"] { keyvar := some (lit "B") } =
      .ok [(lit "B", lit "2")] ∧
    ∀ rest : List Str,
      extractList (lit "A:1" :: lit "B:2" :: rest) { keyvar := some (lit "B") } =
        .ok [(lit "B", lit "2")] := by
  refine ⟨by decide, ?_⟩
  intro rest
  rw [extractList, extractCore_eq _ _ _ _ (by decide)]
  have h1 : processLine (normKeyvar { keyvar := some (lit "B") }) (lit "list") initSt
      (lit "A:1") =
      .next { vars := [(lit "A", lit "1")], FREETEXT := [], ERRORS := [],
              current_var_name := [], current_var_value := [], multiline := false,
              comment_n := 0 } := by decide
  have h2 : processLine (normKeyvar { keyvar := some (lit "B") }) (lit "list")
      { vars := [(lit "A", lit "1")], FREETEXT := [], ERRORS := [],
        current_var_name := [], current_var_value := [], multiline := false, comment_n := 0 }
      (lit "B:2") = .ret [(lit "B", lit "2")] := by decide
  rw [runLoop_next h1, runLoop_ret h2]

/-- C8 counterexample: `_X` satisfies the spec's key syntax
`[A-Za-z_][A-Za-z0-9_]*` and is not the default name, yet `extract`
aborts (the code's validation regex `[a-zA-Z][a-zA-Z0-9_]*` rejects a
leading underscore), in strict and non-strict mode alike. -/
theorem c8_freetext_name_counterexample :
    validKey (lit "_X") = true ∧ lit "_X" ≠ lit "_FREETEXT_" ∧
    extractList [lit "A:1"] { freetext_name := lit "_X" } = .exit1 ∧
    extractList [lit "A:1"] { freetext_name := lit "_X", strict := true } = .exit1 := by
  decide

/-- C8 (amended): parsing proceeds if and only if the free-text key name
is the default `_FREETEXT_` or matches `[a-zA-Z][a-zA-Z0-9_]*` (a leading
underscore is rejected unless the name is exactly the default); an
invalid name is fatal for every option combination and before any line
is processed. -/
theorem c8_freetext_name_amended (fn : Str) (lines : List Str) (kv : Option Str)
    (dv : List Str) (q s nc : Bool) :
    (¬(fn = lit "_FREETEXT_" ∨ freetextNameOk fn = true) →
      extractList lines { keyvar := kv, delvars := dv, quiet := q, strict := s,
                          no_comments := nc, freetext_name := fn } = .exit1) ∧
    ((fn = lit "_FREETEXT_" ∨ freetextNameOk fn = true) →
      extractList lines { keyvar := kv, delvars := dv, quiet := q, strict := s,
                          no_comments := nc, freetext_name := fn } =
        match
          runLoop
            (normKeyvar
              { keyvar := kv, delvars := dv, quiet := q, strict := s,
                no_comments := nc, freetext_name := fn })
            (lit "list") initSt lines with
        | .ret d => .ok d
        | .exit1 => .exit1
        | .done st =>
            postProcess
              (normKeyvar
                { keyvar := kv, delvars := dv, quiet := q, strict := s,
                  no_comments := nc, freetext_name := fn })
              (lit "list") none st) := by
  constructor
  · intro h
    push_neg at h
    rw [extractList, extractCore, if_pos ⟨h.1, by simpa using h.2⟩]
  · intro h
    refine extractCore_eq _ _ _ _ ?_
    rintro ⟨h1, h2⟩
    rcases h with h | h
    · exact h1 h
    · rw [h] at h2
      simp at h2

/-- C8 witness: the invalid-name branch at a concrete input. -/
theorem c8_freetext_name_witness :
    extractList [lit "A:1"] { freetext_name := lit "x-y" } = .exit1 :=
  (c8_freetext_name_amended (lit "x-y") [lit "A:1"] none [] false false false).1 (by decide)

/-- C9: on a list source whose lines contain no key/value declaration and
no comment but at least one non-blank line, non-strict `extract` does not
return a mapping: the whole-input free-text fallback reads `file_content`,
which is only bound for file sources, so the call dies with a `NameError`.
The same holds for a dict source that flattens to such lines. -/
theorem c9_keyless_input_nameError (lines : List Str)
    (_hnb : ∃ l ∈ lines, pyStrip l ≠ [])
    (hnc : ∀ l ∈ lines, (lstrip l).head? ≠ some '#')
    (hnk : ∀ l ∈ lines, keyValueMatch l = none) :
    extractList lines {} = .nameError ∧
    extractDict [(lit "!!", lit "x")] {} = .nameError := by
  refine ⟨?_, by decide⟩
  rw [extractList, extractCore_eq _ _ _ _ (by decide),
      show normKeyvar ({} : Opts) = {} by decide]
  obtain ⟨st2, hdone, hv, hm2, hn2⟩ :=
    runLoop_unstructured_lines (o := {}) rfl (lit "list") lines initSt rfl rfl hnc hnk
  rw [hdone]
  have hvars : trailingCommit st2 = [] := by
    rw [trailingCommit, if_neg]
    · exact hv
    · rintro ⟨hne, _⟩
      exact hne hn2
  show postProcess
      { keyvar := none, delvars := [], quiet := false, strict := false, no_comments := false,
        freetext_name := lit "_FREETEXT_" } (lit "list") none st2 = ExtractResult.nameError
  rw [postProcess.eq_def]
  simp [hvars]

/-- C9 witness. -/
theorem c9_keyless_input_nameError_witness :
    ((∃ l ∈ [lit "BAD"], pyStrip l ≠ []) ∧
     (∀ l ∈ [lit "BAD"], (lstrip l).head? ≠ some '#') ∧
     (∀ l ∈ [lit "BAD"], keyValueMatch l = none)) ∧
    extractList [lit "BAD"] {} = .nameError :=
  ⟨⟨by decide, by decide, by decide⟩,
   (c9_keyless_input_nameError [lit "BAD"] (by decide) (by decide) (by decide)).1⟩

/-- The multiline accumulator after the continuation lines `body`:
each line is appended preceded by a newline (so a leading newline is
always present). -/
def mlJoin (body : List Str) : Str := (body.map (fun l => '\n' :: l)).flatten

theorem runLoop_ml {o : Opts} {src : Str} :
    ∀ (body : List Str) (st : LoopState), st.multiline = true →
    (∀ l ∈ body, rstrip l ≠ q3) →
    ∀ rest, runLoop o src st (body ++ rest) =
      runLoop o src { st with current_var_value := st.current_var_value ++ mlJoin body }
        rest := by
  intro body
  induction body with
  | nil =>
    intro st hm _ rest
    simp only [mlJoin, List.map_nil, List.flatten_nil, List.append_nil, List.nil_append]
  | cons l tl ih =>
    intro st hm hq rest
    rw [List.cons_append, runLoop_next (processLine_cont hm (hq l (by simp)))]
    rw [ih _ (by exact hm) (fun x hx => hq x (by simp [hx])) rest]
    congr 1
    simp [mlJoin, List.append_assoc]

/-- Post-processing with default `keyvar`/`delvars`, no accumulated free
text, a non-empty mapping, and no stored `_ERRORS_` key: the mapping is
returned as is, with the diagnostics appended under `_ERRORS_` when any
were recorded. -/
theorem postProcess_simple {o : Opts} {src : Str} {fc : Option Str} {st : LoopState}
    (hkv : o.keyvar = none) (hdv : o.delvars = [])
    (hfree : pyStrip st.FREETEXT = [])
    (hvars : trailingCommit st ≠ [])
    (herr : dictContains (trailingCommit st) (lit "_ERRORS_") = false) :
    postProcess o src fc st =
      .ok (if pyStrip st.ERRORS = [] then trailingCommit st
           else trailingCommit st ++ [(lit "_ERRORS_", pyStrip st.ERRORS)]) := by
  rw [postProcess.eq_def]
  by_cases he : pyStrip st.ERRORS = [] <;>
    simp [finishUp, errorsFinish, freetextMerge, delvarsRun, hkv, hdv, hfree, hvars, herr, he,
      dictInsert_fresh herr]

/-- C10: when the single requested key is declared as a terminated
multi-line block, the early-exit return delivers the raw accumulator
(each continuation line preceded by a newline, leading newline included,
no trimming), whereas without a requested key the same key is stored
strip-trimmed; on the body `["a"]` the two calls disagree. -/
theorem c10_keyvar_multiline_raw (body : List Str) (hq : ∀ l ∈ body, rstrip l ≠ q3) :
    extractList (lit "K:\"\"\"" :: (body ++ [lit "\"\"\""])) { keyvar := some (lit "K") } =
      .ok [(lit "K", mlJoin body)] ∧
    extractList (lit "K:\"\"\"" :: (body ++ [lit "\"\"\""])) {} =
      .ok [(lit "K", pyStrip (mlJoin body))] ∧
    mlJoin [lit "a"] = '\n' :: lit "a" ∧ pyStrip (mlJoin [lit "a"]) = lit "a" := by
  refine ⟨?_, ?_, by decide, by decide⟩
  · rw [extractList, extractCore_eq _ _ _ _ (by decide)]
    have h1 : processLine (normKeyvar { keyvar := some (lit "K") }) (lit "list") initSt
        (lit "K:\"\"\"") =
        .next { vars := [], FREETEXT := [], ERRORS := [], current_var_name := lit "K",
                current_var_value := [], multiline := true, comment_n := 0 } := by decide
    rw [runLoop_next h1, runLoop_ml body _ rfl hq [lit "\"\"\""]]
    rw [runLoop_ret (processLine_term_ret rfl (by decide) rfl) []]
    rfl
  · rw [extractList, extractCore_eq _ _ _ _ (by decide),
        show normKeyvar ({} : Opts) = {} by decide]
    have h1 : processLine ({} : Opts) (lit "list") initSt (lit "K:\"\"\"") =
        .next { vars := [], FREETEXT := [], ERRORS := [], current_var_name := lit "K",
                current_var_value := [], multiline := true, comment_n := 0 } := by decide
    rw [runLoop_next h1, runLoop_ml body _ rfl hq [lit "\"\"\""]]
    rw [runLoop_next (processLine_term rfl (by decide) (by simp)) []]
    rw [runLoop_nil]
    show postProcess ({} : Opts) (lit "list") none
        { vars := [(lit "K", pyStrip (mlJoin body))], FREETEXT := [], ERRORS := [],
          current_var_name := [], current_var_value := [], multiline := false,
          comment_n := 0 } = _
    have hpp := @postProcess_simple ({} : Opts) (lit "list") none
      { vars := [(lit "K", pyStrip (mlJoin body))], FREETEXT := [], ERRORS := [],
        current_var_name := [], current_var_value := [], multiline := false, comment_n := 0 }
      rfl rfl rfl (by simp [trailingCommit])
      (by
        have hne : (lit "K" == lit "_ERRORS_") = false := by decide
        simp [trailingCommit, dictContains, hne])
    rw [hpp]
    have h0 : pyStrip ([] : Str) = [] := rfl
    simp [h0, trailingCommit]

/-- C10 witness. -/
theorem c10_keyvar_multiline_raw_witness :
    (∀ l ∈ [lit "a"], rstrip l ≠ q3) ∧
    extractList [lit "K:\"\"\"", lit "a", lit "\"\"\""] { keyvar := some (lit "K") } =
      .ok [(lit "K", mlJoin [lit "a"])] :=
  ⟨by decide, (c10_keyvar_multiline_raw [lit "a"] (by decide)).1⟩

/-- Stripping a string made of a non-blank left-stripped literal, an
arbitrary middle, and a right part only trims the right part. -/
theorem pyStrip_wrap (A M B : Str) (hA : lstrip A = A) (hAne : A ≠ [])
    (hB : rstrip B ≠ []) :
    pyStrip (A ++ (M ++ B)) = A ++ (M ++ rstrip B) := by
  rw [pyStrip, lstrip_append _ (by rw [hA]; exact hAne), hA,
      ← List.append_assoc, rstrip_append _ hB, List.append_assoc]

/-- C3: with two single-line declarations of the same key, non-strict
extraction keeps the last value and records exactly one duplicate-key
diagnostic (the whole `_ERRORS_` entry is that one message), while
strict extraction aborts without producing a mapping. -/
theorem c3_duplicate_policy (k v1 v2 : Str) (hk : validKey k = true)
    (hne : k ≠ lit "_ERRORS_")
    (h1n : '\n' ∉ v1) (h2n : '\n' ∉ v2)
    (h1s : pyStrip v1 = v1) (h2s : pyStrip v2 = v2)
    (h1q : v1 ≠ q3) (h2q : v2 ≠ q3) :
    extractList [k ++ ':' :: v1, k ++ ':' :: v2] {} =
      .ok [(k, v2), (lit "_ERRORS_", dupMsg k (lit "list"))] ∧
    extractList [k ++ ':' :: v1, k ++ ':' :: v2] { strict := true } = .exit1 := by
  have hmv1 : keyValueMatch (k ++ ':' :: v1) = some (k, v1) := by
    rw [keyValueMatch_render hk h1n,
        show v1.dropWhile pyIsSpace = v1 from lstrip_eq_of_pyStrip_eq h1s]
  have hmv2 : keyValueMatch (k ++ ':' :: v2) = some (k, v2) := by
    rw [keyValueMatch_render hk h2n,
        show v2.dropWhile pyIsSpace = v2 from lstrip_eq_of_pyStrip_eq h2s]
  have hq1 : ¬(pyStrip v1 = q3) := by rw [h1s]; exact h1q
  have hq2 : ¬(pyStrip v2 = q3) := by rw [h2s]; exact h2q
  have hdup2 : dictContains [(k, v1)] k = true := by simp [dictContains]
  have hshape : dupMsg k (lit "list") ++ ['\n'] =
      lit "Duplicate key '" ++ (k ++ (lit "' in list" ++ ['\n'])) := by
    rw [dupMsg]
    simp only [List.append_assoc]
    rw [show lit "' in " ++ (lit "list" ++ ['\n']) = lit "' in list" ++ ['\n'] from by decide]
  have hstrip : pyStrip (dupMsg k (lit "list") ++ ['\n']) = dupMsg k (lit "list") := by
    rw [hshape, pyStrip_wrap _ _ _ (by decide) (by decide) (by decide),
        show rstrip (lit "' in list" ++ ['\n']) = lit "' in list" from by decide, dupMsg]
    simp only [List.append_assoc]
    rw [show lit "' in " ++ lit "list" = lit "' in list" from by decide]
  have hppe : ¬(pyStrip (dupMsg k (lit "list") ++ ['\n']) = []) := by
    rw [hstrip, dupMsg]
    intro h
    exact absurd (List.append_eq_nil.mp h).2 (by decide)
  constructor
  · rw [extractList, extractCore_eq _ _ _ _ (by decide),
        show normKeyvar ({} : Opts) = {} by decide]
    have hstep1 : processLine ({} : Opts) (lit "list") initSt (k ++ ':' :: v1) =
        .next { vars := [(k, v1)], FREETEXT := [], ERRORS := [], current_var_name := [],
                current_var_value := [], multiline := false, comment_n := 0 } := by
      rw [@processLine_kv ({} : Opts) (lit "list") initSt (k ++ ':' :: v1) k v1 rfl hmv1 rfl,
          if_neg hq1, if_neg (by simp), h1s]
      rfl
    rw [runLoop_next hstep1]
    have hstep2 : processLine ({} : Opts) (lit "list")
        { vars := [(k, v1)], FREETEXT := [], ERRORS := [], current_var_name := [],
          current_var_value := [], multiline := false, comment_n := 0 }
        (k ++ ':' :: v2) =
        .next { vars := [(k, v2)], FREETEXT := [],
                ERRORS := dupMsg k (lit "list") ++ ['\n'], current_var_name := [],
                current_var_value := [], multiline := false, comment_n := 0 } := by
      rw [@processLine_kv_dup ({} : Opts) (lit "list")
            { vars := [(k, v1)], FREETEXT := [], ERRORS := [], current_var_name := [],
              current_var_value := [], multiline := false, comment_n := 0 }
            (k ++ ':' :: v2) k v2 rfl hmv2 hdup2,
          if_neg (by simp), if_neg hq2, if_neg (by simp), h2s]
      simp [dictInsert]
    rw [runLoop_next hstep2, runLoop_nil]
    show postProcess ({} : Opts) (lit "list") none _ = _
    have hpp := @postProcess_simple ({} : Opts) (lit "list") none
      { vars := [(k, v2)], FREETEXT := [], ERRORS := dupMsg k (lit "list") ++ ['\n'],
        current_var_name := [], current_var_value := [], multiline := false, comment_n := 0 }
      rfl rfl rfl (by simp [trailingCommit])
      (by
        simp only [trailingCommit, ne_eq, not_true_eq_false, false_and, if_false]
        exact dictContains_eq_false (by
          intro p hp
          rw [List.mem_singleton.mp hp]
          exact hne))
    rw [hpp]
    simp only [trailingCommit, ne_eq, not_true_eq_false, false_and, if_false]
    rw [if_neg hppe, hstrip]
    simp
  · rw [extractList, extractCore_eq _ _ _ _ (by decide),
        show normKeyvar { strict := true } = { strict := true } by decide]
    have hstep1 : processLine ({ strict := true } : Opts) (lit "list") initSt
        (k ++ ':' :: v1) =
        .next { vars := [(k, v1)], FREETEXT := [], ERRORS := [], current_var_name := [],
                current_var_value := [], multiline := false, comment_n := 0 } := by
      rw [@processLine_kv ({ strict := true } : Opts) (lit "list") initSt (k ++ ':' :: v1)
            k v1 rfl hmv1 rfl,
          if_neg hq1, if_neg (by simp), h1s]
      rfl
    rw [runLoop_next hstep1]
    have hstep2 : processLine ({ strict := true } : Opts) (lit "list")
        { vars := [(k, v1)], FREETEXT := [], ERRORS := [], current_var_name := [],
          current_var_value := [], multiline := false, comment_n := 0 }
        (k ++ ':' :: v2) = .exit1 := by
      rw [@processLine_kv_dup ({ strict := true } : Opts) (lit "list")
            { vars := [(k, v1)], FREETEXT := [], ERRORS := [], current_var_name := [],
              current_var_value := [], multiline := false, comment_n := 0 }
            (k ++ ':' :: v2) k v2 rfl hmv2 hdup2,
          if_pos rfl]
    rw [runLoop_exit hstep2]

/-- C3 witness. -/
theorem c3_duplicate_policy_witness :
    (validKey (lit "K") = true ∧ lit "K" ≠ lit "_ERRORS_" ∧ pyStrip (lit "a") = lit "a") ∧
    extractList [lit "K" ++ ':' :: lit "a", lit "K" ++ ':' :: lit "b"] {} =
      .ok [(lit "K", lit "b"), (lit "_ERRORS_", dupMsg (lit "K") (lit "list"))] :=
  ⟨⟨by decide, by decide, by decide⟩,
   (c3_duplicate_policy (lit "K") (lit "a") (lit "b") (by decide) (by decide) (by decide)
     (by decide) (by decide) (by decide) (by decide) (by decide)).1⟩

/-- C7 counterexample: on a file whose content has no key/value line the
returned mapping differs with the quiet flag — line 231 of the source
appends the "No key variables found" diagnostic to `ERRORS` only when
verbose, and that string ends up in the returned `_ERRORS_` entry. -/
theorem c7_quiet_counterexample :
    extractFile (lit "f") (lit "hello") { quiet := true } ≠
    extractFile (lit "f") (lit "hello") { quiet := false } := by
  decide

theorem processLine_quiet (o : Opts) (b : Bool) (src : Str) (st : LoopState) (l : Str) :
    processLine { o with quiet := b } src st l = processLine o src st l := rfl

theorem runLoop_quiet (o : Opts) (b : Bool) (src : Str) :
    ∀ (lines : List Str) (st : LoopState),
      runLoop { o with quiet := b } src st lines = runLoop o src st lines := by
  intro lines
  induction lines with
  | nil => intro st; rfl
  | cons l tl ih =>
    intro st
    rw [runLoop, runLoop, processLine_quiet]
    cases processLine o src st l with
    | next st2 => exact ih st2
    | ret d => rfl
    | exit1 => rfl

theorem finishUp_quiet (o : Opts) (b : Bool) (src : Str) (vars : Doc) (F E : Str) :
    finishUp { o with quiet := b } src vars F E = finishUp o src vars F E := rfl

theorem postProcess_quiet {o : Opts} (b : Bool) {src : Str} {fc : Option Str}
    {st : LoopState} (h : trailingCommit st ≠ []) :
    postProcess { o with quiet := b } src fc st = postProcess o src fc st := by
  rw [postProcess.eq_def, postProcess.eq_def]
  simp [h, finishUp_quiet]

/-- C7 (amended): the quiet flag never changes the returned mapping
whenever the parsed mapping is non-empty (or the call returns early or
aborts); the single exception, shown by the counterexample, is the
empty-mapping fallback on a file source, where the "No key variables
found" diagnostic joins `_ERRORS_` only when quiet is unset. -/
theorem c7_quiet_noninterference (o : Opts) (b : Bool) (src : Str) (fc : Option Str)
    (lines : List Str)
    (h : ∀ st, runLoop (normKeyvar o) src initSt lines = .done st → trailingCommit st ≠ []) :
    extractCore { o with quiet := b } src fc lines = extractCore o src fc lines := by
  rw [extractCore, extractCore]
  by_cases hft : o.freetext_name ≠ lit "_FREETEXT_" ∧ freetextNameOk o.freetext_name = false
  · rw [if_pos hft, if_pos (by exact hft)]
  · rw [if_neg hft, if_neg (by exact hft)]
    have hn : normKeyvar { o with quiet := b } = { normKeyvar o with quiet := b } := rfl
    rw [hn, runLoop_quiet (normKeyvar o) b src lines initSt]
    cases hr : runLoop (normKeyvar o) src initSt lines with
    | ret d => rfl
    | exit1 => rfl
    | done st => exact postProcess_quiet b (h st hr)

/-- C7 witness. -/
theorem c7_quiet_noninterference_witness :
    extractCore { ({} : Opts) with quiet := true } (lit "list") none [lit "A:1"] =
      extractCore ({} : Opts) (lit "list") none [lit "A:1"] :=
  c7_quiet_noninterference {} true (lit "list") none [lit "A:1"] (by
    intro st hst
    have hc : runLoop (normKeyvar ({} : Opts)) (lit "list") initSt [lit "A:1"] =
        LoopRes.done
          { vars := [(lit "A", lit "1")], FREETEXT := [], ERRORS := [],
            current_var_name := [], current_var_value := [], multiline := false,
            comment_n := 0 } := by decide
    rw [hc] at hst
    rw [← LoopRes.done.inj hst]
    decide)

/-- C5 counterexample: a keyless non-blank file yields the free-text
entry plus an `_ERRORS_` entry — not a single-entry mapping. -/
theorem c5_freetext_counterexample :
    extractFile (lit "f") (lit "hello") {} =
      .ok [(lit "_FREETEXT_", lit "hello"),
           (lit "_ERRORS_",
            lit "No variable key in 'hello...' in file 'f'\nNo key variables found in file 'f'")] ∧
    extractFile (lit "f") (lit "hello") {} ≠ .ok [(lit "_FREETEXT_", lit "hello")] := by
  decide

/-- C5 (amended): for every file whose lines contain no key/value
declaration and no comment, with non-blank content, default non-strict
extraction returns exactly two entries: the free-text key bound to the
strip-trimmed original content, plus the `_ERRORS_` diagnostics entry. -/
theorem c5_freetext_amended (path content : Str)
    (hnb : pyStrip content ≠ [])
    (hnc : ∀ l ∈ pySplitlines content, (lstrip l).head? ≠ some '#')
    (hnk : ∀ l ∈ pySplitlines content, keyValueMatch l = none) :
    ∃ e, extractFile path content {} =
      .ok [(lit "_FREETEXT_", pyStrip content), (lit "_ERRORS_", e)] := by
  rw [extractFile, extractCore_eq _ _ _ _ (by decide),
      show normKeyvar ({} : Opts) = {} by decide]
  obtain ⟨st2, hdone, hv, hm2, hn2⟩ :=
    runLoop_unstructured_lines (o := {}) rfl (lit "file '" ++ path ++ lit "'")
      (pySplitlines content) initSt rfl rfl hnc hnk
  rw [hdone]
  have hvars : trailingCommit st2 = [] := by
    rw [trailingCommit, if_neg]
    · exact hv
    · rintro ⟨hne, _⟩
      exact hne hn2
  have hE1 : pyStrip (st2.ERRORS ++ noVarsMsg (lit "file '" ++ path ++ lit "'") ++ ['\n']) ≠
      [] := by
    refine pyStrip_ne_nil (c := 'N') ?_ (by decide)
    refine List.mem_append.mpr (Or.inl (List.mem_append.mpr (Or.inr ?_)))
    rw [noVarsMsg]
    exact List.mem_append.mpr (Or.inl (by decide))
  refine ⟨pyStrip (st2.ERRORS ++ noVarsMsg (lit "file '" ++ path ++ lit "'") ++ ['\n']), ?_⟩
  show postProcess ({} : Opts) (lit "file '" ++ path ++ lit "'") (some content) st2 = _
  rw [postProcess.eq_def]
  simp only [hvars, if_pos rfl]
  simp [finishUp, delvarsRun, freetextMerge, errorsFinish, dictContains, dictInsert, hnb, hE1,
    show (lit "_FREETEXT_" == lit "_ERRORS_") = false from by decide]
  rw [if_neg (by
        intro he
        exact hE1 (by simpa [List.append_assoc] using he)),
      if_neg (by decide)]

/-- C5 witness. -/
theorem c5_freetext_amended_witness :
    (pyStrip (lit "hello") ≠ [] ∧
     (∀ l ∈ pySplitlines (lit "hello"), (lstrip l).head? ≠ some '#') ∧
     (∀ l ∈ pySplitlines (lit "hello"), keyValueMatch l = none)) ∧
    ∃ e, extractFile (lit "f") (lit "hello") {} =
      .ok [(lit "_FREETEXT_", pyStrip (lit "hello")), (lit "_ERRORS_", e)] :=
  ⟨⟨by decide, by decide, by decide⟩,
   c5_freetext_amended (lit "f") (lit "hello") (by decide) (by decide) (by decide)⟩

/-! ### Round-trip infrastructure (C1) -/

/-- The text written by `write` with the default options. -/
def textOf (d : Doc) : Str :=
  (d.map (fun p => writeEntry [' '] ['\n', '\n'] p.1 p.2)).flatten

theorem writeDoc_default (d : Doc) : writeDoc d none 2 1 = textOf d := rfl

theorem keyChar_not_break {c : Char} (h : isKeyChar c = true) : isLineBreak c = false := by
  by_contra hc
  rw [Bool.not_eq_false] at hc
  simp only [isLineBreak, Bool.or_eq_true, beq_iff_eq] at hc
  rcases hc with ((((((((rfl | rfl) | rfl) | rfl) | rfl) | rfl) | rfl) | rfl) | rfl) | rfl <;>
    exact absurd h (by decide)

theorem rstrip_decomp (s : Str) :
    ∃ w, s = rstrip s ++ w ∧ ∀ c ∈ w, pyIsSpace c = true := by
  refine ⟨(s.reverse.takeWhile pyIsSpace).reverse, ?_, ?_⟩
  · have h := List.takeWhile_append_dropWhile pyIsSpace s.reverse
    calc s = s.reverse.reverse := (List.reverse_reverse s).symm
      _ = (s.reverse.takeWhile pyIsSpace ++ s.reverse.dropWhile pyIsSpace).reverse := by rw [h]
      _ = rstrip s ++ (s.reverse.takeWhile pyIsSpace).reverse := by
          rw [List.reverse_append]
          rfl
  · intro c hc
    exact List.mem_takeWhile_imp (List.mem_reverse.mp hc)

theorem rstrip_eq_q3_inside {v : Str} (h : rstrip v = q3) : q3 <:+: v := by
  obtain ⟨w, hw, _⟩ := rstrip_decomp v
  rw [h] at hw
  exact ⟨[], w, by rw [hw]; simp⟩

theorem break_decomp (v : Str) (h : '\n' ∈ v) :
    ∃ v₁ v₂, v = v₁ ++ '\n' :: v₂ ∧ '\n' ∉ v₁ := by
  induction v with
  | nil => simp at h
  | cons c tl ih =>
    by_cases hc : c = '\n'
    · exact ⟨[], tl, by simp [hc], by simp⟩
    · rcases List.mem_cons.mp h with h1 | h2
      · exact absurd h1.symm hc
      · obtain ⟨a, b, hab, hna⟩ := ih h2
        refine ⟨c :: a, b, by simp [hab], ?_⟩
        intro hm
        rcases List.mem_cons.mp hm with h3 | h3
        · exact hc h3.symm
        · exact hna h3

/-- Consuming the serialized body of a multi-line value: the continuation
lines accumulate, the terminator commits the stripped accumulator. -/
theorem runLoop_ml_consume {src : Str} :
    ∀ (N : Nat) (v : Str), v.length ≤ N →
    (∀ c ∈ v, isLineBreak c = true → c = '\n') → ¬(q3 <:+: v) →
    ∀ (Z : Str) (V : Doc) (F E a k : Str) (n : Nat),
    runLoop ({} : Opts) src
      { vars := V, FREETEXT := F, ERRORS := E, current_var_name := k,
        current_var_value := a, multiline := true, comment_n := n }
      (pySplitlines (v ++ '\n' :: (q3 ++ '\n' :: Z))) =
    runLoop ({} : Opts) src
      { vars := dictInsert V k (pyStrip (a ++ '\n' :: v)), FREETEXT := F, ERRORS := E,
        current_var_name := [], current_var_value := [], multiline := false, comment_n := n }
      (pySplitlines Z) := by
  intro N
  induction N with
  | zero =>
    intro v hlen _ _ Z V F E a k n
    obtain rfl : v = [] := List.length_eq_zero.mp (Nat.le_zero.mp hlen)
    rw [pySplitlines_peel [] (by simp)]
    rw [runLoop_next (processLine_cont rfl (by decide))]
    rw [pySplitlines_peel q3 (by decide)]
    rw [runLoop_next (processLine_term rfl (by decide) (by simp))]
  | succ N ih =>
    intro v hlen hv hq Z V F E a k n
    by_cases hmem : '\n' ∈ v
    · obtain ⟨v₁, v₂, rfl, hnv₁⟩ := break_decomp v hmem
      have hbf : ∀ c ∈ v₁, isLineBreak c = false := by
        intro c hc
        by_contra hb
        rw [Bool.not_eq_false] at hb
        have he := hv c (List.mem_append.mpr (Or.inl hc)) hb
        exact hnv₁ (he ▸ hc)
      have hrs : rstrip v₁ ≠ q3 := by
        intro he
        exact hq ((rstrip_eq_q3_inside he).trans
          (List.IsPrefix.isInfix (List.prefix_append v₁ ('\n' :: v₂))))
      rw [show (v₁ ++ '\n' :: v₂) ++ '\n' :: (q3 ++ '\n' :: Z) =
            v₁ ++ '\n' :: (v₂ ++ '\n' :: (q3 ++ '\n' :: Z)) from by simp]
      rw [pySplitlines_peel v₁ hbf]
      rw [runLoop_next (processLine_cont rfl hrs)]
      have hlen2 : v₂.length ≤ N := by
        have := congrArg List.length (rfl : v₁ ++ '\n' :: v₂ = v₁ ++ '\n' :: v₂)
        simp only [List.length_append, List.length_cons] at hlen
        omega
      have hv2 : ∀ c ∈ v₂, isLineBreak c = true → c = '\n' := fun c hc hb =>
        hv c (List.mem_append.mpr (Or.inr (List.mem_cons.mpr (Or.inr hc)))) hb
      have hq2 : ¬(q3 <:+: v₂) := by
        intro hi
        exact hq (hi.trans ⟨v₁ ++ ['\n'], [], by simp⟩)
      rw [ih v₂ hlen2 hv2 hq2 Z V F E (a ++ '\n' :: v₁) k n]
      congr 2
      simp [List.append_assoc]
    · have hbf : ∀ c ∈ v, isLineBreak c = false := by
        intro c hc
        by_contra hb
        rw [Bool.not_eq_false] at hb
        exact hmem ((hv c hc hb) ▸ hc)
      have hrs : rstrip v ≠ q3 := fun he => hq (rstrip_eq_q3_inside he)
      rw [pySplitlines_peel v hbf]
      rw [runLoop_next (processLine_cont rfl hrs)]
      rw [pySplitlines_peel q3 (by decide)]
      rw [runLoop_next (processLine_term rfl (by decide) (by simp))]

/-- Replaying the serialized text of a document with fresh, valid,
non-special keys and well-behaved values: every entry is re-inserted
verbatim, in order. -/
theorem runLoop_textOf {src : Str} :
    ∀ (d : Doc) (V : Doc) (n : Nat),
    (∀ p ∈ d, validKey p.1 = true ∧ (lit "_COMMENT_").isPrefixOf p.1 = false ∧
       pyStrip p.2 = p.2 ∧ ¬(q3 <:+: p.2) ∧ (∀ c ∈ p.2, isLineBreak c = true → c = '\n')) →
    (d.map Prod.fst).Nodup →
    (∀ p ∈ d, dictContains V p.1 = false) →
    runLoop ({} : Opts) src
      { vars := V, FREETEXT := [], ERRORS := [], current_var_name := [],
        current_var_value := [], multiline := false, comment_n := n }
      (pySplitlines (textOf d)) =
    .done { vars := V ++ d, FREETEXT := [], ERRORS := [], current_var_name := [],
            current_var_value := [], multiline := false, comment_n := n } := by
  intro d
  induction d with
  | nil =>
    intro V n _ _ _
    rw [show textOf [] = [] from rfl, pySplitlines_nil, runLoop_nil]
    simp
  | cons p rest ih =>
    obtain ⟨k, v⟩ := p
    intro V n hall hnd hf
    obtain ⟨hk, hnc, hstrip, hq, hbr⟩ := hall (k, v) (by simp)
    have hdupf : dictContains V k = false := hf (k, v) (by simp)
    have hkbf : ∀ c ∈ k, isLineBreak c = false :=
      fun c hc => keyChar_not_break (validKey_chars hk c hc)
    have hknotin : k ∉ rest.map Prod.fst := by
      have h2 : (k :: rest.map Prod.fst).Nodup := by simpa using hnd
      exact (List.nodup_cons.mp h2).1
    have hih := ih (V ++ [(k, v)]) n
      (fun p hp => hall p (List.mem_cons.mpr (Or.inr hp)))
      (by
        have h2 : (k :: rest.map Prod.fst).Nodup := by simpa using hnd
        exact (List.nodup_cons.mp h2).2)
      (fun p hp => by
        rw [dictContains_append, hf p (List.mem_cons.mpr (Or.inr hp))]
        have hne : k ≠ p.1 :=
          fun he => hknotin (he ▸ List.mem_map_of_mem Prod.fst hp)
        simp [dictContains, hne])
    rw [show textOf ((k, v) :: rest) = writeEntry [' '] ['\n', '\n'] k v ++ textOf rest
        from by simp [textOf]]
    by_cases hnl : '\n' ∈ v
    · have hcont : v.contains '\n' = true := List.elem_iff.mpr hnl
      rw [show writeEntry [' '] ['\n', '\n'] k v ++ textOf rest =
            (k ++ ':' :: ' ' :: q3) ++ '\n' :: (v ++ '\n' :: (q3 ++ '\n' :: ('\n' :: textOf rest)))
          from by simp [writeEntry, hcont, hnl, pyReplace_self, q3, List.append_assoc]]
      have hL1 : ∀ c ∈ k ++ ':' :: ' ' :: q3, isLineBreak c = false := by
        intro c hc
        rcases List.mem_append.mp hc with h | h
        · exact hkbf c h
        · simp only [q3, List.mem_cons, List.not_mem_nil, or_false] at h
          rcases h with rfl | rfl | rfl | rfl | rfl <;> decide
      rw [pySplitlines_peel _ hL1]
      have hmv : keyValueMatch (k ++ ':' :: ' ' :: q3) = some (k, q3) := by
        rw [keyValueMatch_render hk (by decide)]
        rfl
      have hstep : processLine ({} : Opts) src
          { vars := V, FREETEXT := [], ERRORS := [], current_var_name := [],
            current_var_value := [], multiline := false, comment_n := n }
          (k ++ ':' :: ' ' :: q3) =
          .next { vars := V, FREETEXT := [], ERRORS := [], current_var_name := k,
                  current_var_value := [], multiline := true, comment_n := n } := by
        rw [@processLine_kv ({} : Opts) src _ (k ++ ':' :: ' ' :: q3) k q3 rfl hmv hdupf,
            if_pos (by decide)]
      rw [runLoop_next hstep]
      rw [runLoop_ml_consume v.length v le_rfl hbr hq ('\n' :: textOf rest) V [] [] [] k n]
      rw [show dictInsert V k (pyStrip ([] ++ '\n' :: v)) = V ++ [(k, v)] from by
        rw [List.nil_append, pyStrip_cons_ws (by decide), hstrip, dictInsert_fresh hdupf]]
      rw [show ('\n' :: textOf rest : Str) = [] ++ '\n' :: textOf rest from rfl,
          pySplitlines_peel [] (by simp)]
      rw [runLoop_next (processLine_nil rfl)]
      rw [hih]
      simp
    · have hcont : v.contains '\n' = false := by
        by_contra hb
        rw [Bool.not_eq_false] at hb
        exact hnl (List.elem_iff.mp hb)
      have hvbf : ∀ c ∈ v, isLineBreak c = false := by
        intro c hc
        by_contra hb
        rw [Bool.not_eq_false] at hb
        exact hnl ((hbr c hc hb) ▸ hc)
      have hnc' : ¬(lit "_COMMENT_" <+: k) := by
        intro hp
        exact absurd (List.isPrefixOf_iff_prefix.mpr hp) (by simp [hnc])
      rw [show writeEntry [' '] ['\n', '\n'] k v ++ textOf rest =
            (k ++ ':' :: ' ' :: v) ++ '\n' :: ('\n' :: textOf rest)
          from by simp [writeEntry, hcont, hnl, hnc', List.append_assoc]]
      have hL1 : ∀ c ∈ k ++ ':' :: ' ' :: v, isLineBreak c = false := by
        intro c hc
        rcases List.mem_append.mp hc with h | h
        · exact hkbf c h
        · rcases List.mem_cons.mp h with rfl | h
          · decide
          · rcases List.mem_cons.mp h with rfl | h
            · decide
            · exact hvbf c h
      rw [pySplitlines_peel _ hL1]
      have hmv : keyValueMatch (k ++ ':' :: ' ' :: v) = some (k, v) := by
        rw [keyValueMatch_render hk (by
            intro hm
            rcases List.mem_cons.mp hm with he | hm2
            · exact absurd he.symm (by decide)
            · exact hnl hm2)]
        rw [show (' ' :: v : Str).dropWhile pyIsSpace = v.dropWhile pyIsSpace from by
              simp [List.dropWhile_cons, pyIsSpace]]
        rw [show v.dropWhile pyIsSpace = v from lstrip_eq_of_pyStrip_eq hstrip]
      have hvq3 : ¬(pyStrip v = q3) := by
        rw [hstrip]
        intro he
        exact hq (he ▸ List.infix_refl v)
      have hstep : processLine ({} : Opts) src
          { vars := V, FREETEXT := [], ERRORS := [], current_var_name := [],
            current_var_value := [], multiline := false, comment_n := n }
          (k ++ ':' :: ' ' :: v) =
          .next { vars := V ++ [(k, v)], FREETEXT := [], ERRORS := [],
                  current_var_name := [], current_var_value := [], multiline := false,
                  comment_n := n } := by
        rw [@processLine_kv ({} : Opts) src _ (k ++ ':' :: ' ' :: v) k v rfl hmv hdupf,
            if_neg hvq3, if_neg (by simp), hstrip, dictInsert_fresh hdupf]
      rw [runLoop_next hstep]
      rw [show ('\n' :: textOf rest : Str) = [] ++ '\n' :: textOf rest from rfl,
          pySplitlines_peel [] (by simp)]
      rw [runLoop_next (processLine_nil rfl)]
      rw [hih]
      simp

/-- The documents for which the default write/extract round trip is
exact: non-empty, syntactically valid pairwise distinct keys that are
neither `_COMMENT_`-prefixed nor `_ERRORS_`, and strip-invariant values
that contain no `"""` and use `\n` as their only line-break character. -/
def goodDoc (d : Doc) : Prop :=
  d ≠ [] ∧ (d.map Prod.fst).Nodup ∧
  ∀ p ∈ d, validKey p.1 = true ∧ (lit "_COMMENT_").isPrefixOf p.1 = false ∧
    p.1 ≠ lit "_ERRORS_" ∧ pyStrip p.2 = p.2 ∧ ¬(q3 <:+: p.2) ∧
    (∀ c ∈ p.2, isLineBreak c = true → c = '\n')

/-- C1 counterexample: the document `{A: " x"}` has a syntactically
valid key and a value without any delimiter sequence, yet
`parse(serialize(doc))` strips the value to `"x"` — the round trip as
claimed fails. -/
theorem c1_roundtrip_counterexample :
    extractFile (lit "f") (writeDoc [(lit "A", lit " x")] none 2 1) {} =
      .ok [(lit "A", lit "x")] ∧
    ExtractResult.ok [(lit "A", lit "x")] ≠ .ok [(lit "A", lit " x")] := by
  decide

/-- C1 (amended): for every `goodDoc` document, extracting the text
serialized with the default writer options returns exactly the original
document, in order. -/
theorem c1_roundtrip_amended (path : Str) (d : Doc) (hd : goodDoc d) :
    extractFile path (writeDoc d none 2 1) {} = .ok d := by
  obtain ⟨hne, hnd, hall⟩ := hd
  rw [extractFile, extractCore_eq _ _ _ _ (by decide),
      show normKeyvar ({} : Opts) = {} by decide, writeDoc_default]
  rw [show (initSt : LoopState) =
      { vars := [], FREETEXT := [], ERRORS := [], current_var_name := [],
        current_var_value := [], multiline := false, comment_n := 0 } from rfl]
  rw [runLoop_textOf d [] 0
      (fun p hp => ⟨(hall p hp).1, (hall p hp).2.1, (hall p hp).2.2.2.1,
                    (hall p hp).2.2.2.2.1, (hall p hp).2.2.2.2.2⟩)
      hnd (fun p _ => rfl)]
  show postProcess ({} : Opts) (lit "file '" ++ path ++ lit "'") (some (textOf d)) _ = _
  have herr : dictContains ([] ++ d : Doc) (lit "_ERRORS_") = false :=
    dictContains_eq_false (fun p hp => (hall p (by simpa using hp)).2.2.1)
  have hpp := @postProcess_simple ({} : Opts) (lit "file '" ++ path ++ lit "'")
    (some (textOf d))
    { vars := [] ++ d, FREETEXT := [], ERRORS := [], current_var_name := [],
      current_var_value := [], multiline := false, comment_n := 0 }
    rfl rfl rfl (by simp [trailingCommit, hne]) (by simpa [trailingCommit] using herr)
  rw [hpp]
  have h0 : pyStrip ([] : Str) = [] := rfl
  simp [trailingCommit, h0]

/-- C1 witness. -/
theorem c1_roundtrip_witness :
    goodDoc [(lit "A", lit "x"), (lit "B", lit "m\nn")] ∧
    extractFile (lit "f") (writeDoc [(lit "A", lit "x"), (lit "B", lit "m\nn")] none 2 1) {} =
      .ok [(lit "A", lit "x"), (lit "B", lit "m\nn")] :=
  ⟨by constructor
      · decide
      · constructor
        · decide
        · decide,
   c1_roundtrip_amended (lit "f") _ (by
      constructor
      · decide
      · constructor
        · decide
        · decide)⟩
